import Mathlib

/-!
Verification of the common-templates reconciliation core of ssp-operator.

The Go source `internal/operands/common-templates/reconcile.go` is embedded
shallowly: Kubernetes objects become the `KObject` structure, Go label and
annotation maps become association lists, the cluster store becomes a list of
objects, and the controller-runtime client becomes a `Client` record with
injectable faults.  Parts of the repository that the given source calls but
that are defined elsewhere (the generic CreateOrUpdate engine, the status
aggregator `CollectResourceStatus`, the label constants and static object
constructors of the package) are modelled from the specification; each such
definition says so in its doc comment.
-/

namespace SSPCore

/-- Association-list lookup, first match wins (Go map read). -/
def lookupAL : List (String × String) → String → Option String
  | [], _ => none
  | kv :: rest, k => if kv.1 = k then some kv.2 else lookupAL rest k

/-- Whether a key is present in an association list. -/
def containsKey (l : List (String × String)) (k : String) : Bool :=
  l.any (fun kv => kv.1 == k)

/-- The keys of the association list are pairwise distinct (a real Go map). -/
def keysNodup (l : List (String × String)) : Prop := (l.map Prod.fst).Nodup

instance (l : List (String × String)) : Decidable (keysNodup l) := by
  unfold keysNodup; infer_instance

/-- Go map write `l[k] = v`: overwrite in place, or append a fresh key. -/
def setAL (l : List (String × String)) (k v : String) : List (String × String) :=
  if containsKey l k then l.map (fun kv => if kv.1 = k then (k, v) else kv)
  else l ++ [(k, v)]

/-- Replace an entry's value by the overriding map's value when its key occurs there. -/
def overrideWith (o : List (String × String)) (kv : String × String) : String × String :=
  match lookupAL o kv.1 with
  | some v => (kv.1, v)
  | none => kv

/-- Left-biased union of association lists: entries of the base keep their
position (values overridden by `o` where the key collides), keys only in `o`
are appended. -/
def unionAL (o b : List (String × String)) : List (String × String) :=
  b.map (overrideWith o) ++ o.filter (fun kv => ! containsKey b kv.1)

/-- Outcome of one reconcile operation. -/
inductive ResourceStatus
  | Created
  | Updated
  | Unchanged
  deriving DecidableEq, Repr

/-- A store error; `notFound` mirrors `errors.IsNotFound`. -/
structure KError where
  notFound : Bool
  code : Nat
  deriving DecidableEq, Repr

/-- A Kubernetes object as this core sees it: identity, labels, annotations
and an opaque payload standing for the kind-specific mutable fields
(`Rules`, `Subjects`/`RoleRef`, `Objects`/`Parameters`). -/
structure KObject where
  kind : String
  name : String
  ns : String
  labels : List (String × String)
  annotations : List (String × String)
  payload : List String
  deriving DecidableEq, Repr

/-- Store identity of an object: (kind, namespace, name). -/
def objKey (o : KObject) : String × String × String := (o.kind, o.ns, o.name)

/-- The resource store: a list of live objects. -/
abbrev Store := List KObject

/-- Fetch by key (first match). -/
def getObj : Store → String × String × String → Option KObject
  | [], _ => none
  | o :: rest, k => if objKey o = k then some o else getObj rest k

/-- Replace the object stored under a key. -/
def updateObj (s : Store) (k : String × String × String) (o' : KObject) : Store :=
  s.map (fun o => if objKey o = k then o' else o)

/-- Remove the object stored under a key. -/
def removeObj (s : Store) (k : String × String × String) : Store :=
  s.filter (fun o => ! (objKey o == k))

def operandName : String := "common-templates"

/-- Modelled from the spec: the value of `common.AppComponentTemplating`,
defined outside the given sources. -/
def operandComponent : String := "templating"

/-- Modelled from the spec: the ManagedLabelSet (operand name and operand
component) that `WithAppLabels(operandName, operandComponent)` asserts. -/
def appLabels : List (String × String) :=
  [("app.kubernetes.io/name", operandName),
   ("app.kubernetes.io/component", operandComponent)]

/-- Apply the ManagedLabelSet to an object (spec 4.1, create path). -/
def withAppLabels (o : KObject) : KObject :=
  { o with labels := unionAL appLabels o.labels }

/-- Modelled from the spec: the metadata part of the engine's merge — desired
labels and annotations are asserted onto the found object, and the
ManagedLabelSet stays present after any merge (spec 4.1 and 8). -/
def mergeMetadata (d e : KObject) : KObject :=
  { e with
    labels := unionAL appLabels (unionAL d.labels e.labels),
    annotations := unionAL d.annotations e.annotations }

/-- Result of one engine call: resulting store, status, and whether a write
was issued to the store. -/
structure ReconcileResult where
  store : Store
  status : ResourceStatus
  wrote : Bool
  deriving DecidableEq, Repr

/-- Modelled from the spec: the generic CreateOrUpdate engine
`ReconcileOne(desired, mergeFn)` of the shared common package (spec 4.1).
Fetch by key; absent → apply ManagedLabelSet and create (Created); present →
merge metadata, apply the kind-specific merge function, write back only if
the merged result differs from what was fetched (Updated), else Unchanged. -/
def ReconcileOne (d : KObject) (mergeFn : KObject → KObject → KObject)
    (s : Store) : ReconcileResult :=
  match getObj s (objKey d) with
  | none => ⟨s ++ [withAppLabels d], ResourceStatus.Created, true⟩
  | some e =>
    let merged := mergeFn d (mergeMetadata d e)
    if merged = e then ⟨s, ResourceStatus.Unchanged, false⟩
    else ⟨updateObj s (objKey d) merged, ResourceStatus.Updated, true⟩

/-- A reconcile operation over a state type: the state after the call, the
status of the touched resource, and an optional error. -/
def ReconcileFunc (σ : Type) : Type := σ → σ × ResourceStatus × Option KError

/-- Result of running the status aggregator. -/
structure CollectResult (σ : Type) where
  statuses : List ResourceStatus
  err : Option KError
  state : σ

/-- Modelled from the spec: `common.CollectResourceStatus` of the shared
common package (spec 4.2): run the operations strictly in order, collect each
executed operation's status, and abort on the first operation returning a
non-absence error, returning the statuses collected so far together with that
error. -/
def CollectResourceStatus {σ : Type} :
    List (ReconcileFunc σ) → σ → CollectResult σ
  | [], s => ⟨[], none, s⟩
  | f :: fs, s =>
    match f s with
    | (s', st, some e) =>
      if e.notFound then
        let r := CollectResourceStatus fs s'
        ⟨st :: r.statuses, r.err, r.state⟩
      else ⟨[st], some e, s'⟩
    | (s', st, none) =>
      let r := CollectResourceStatus fs s'
      ⟨st :: r.statuses, r.err, r.state⟩

/-- The controller-runtime client: the live store plus injectable faults for
the List and Delete calls. -/
structure Client where
  store : Store
  listFault : Option KError
  deleteFault : KObject → Option KError

/-- Modelled from the spec: label key of the source constant
`TemplateTypeLabel` (defined outside the given sources); the category label. -/
def TemplateTypeLabel : String := "template.kubevirt.io/type"

/-- Modelled from the spec: label key of the source constant
`TemplateVersionLabel` (defined outside the given sources). -/
def TemplateVersionLabel : String := "template.kubevirt.io/version"

/-- Modelled from the spec: key of the source constant
`TemplateDeprecatedAnnotation` (defined outside the given sources). -/
def TemplateDeprecatedKey : String := "template.kubevirt.io/deprecated"

/-- Modelled from the spec: the OS-identifying reserved label key prefix
(source constant `TemplateOsLabelPrefix`, defined outside the given sources). -/
def TemplateOsLabelPfx : String := "os.template.kubevirt.io/"

/-- Modelled from the spec: the flavor-identifying reserved label key prefix
(source constant `TemplateFlavorLabelPrefix`). -/
def TemplateFlavorLabelPfx : String := "flavor.template.kubevirt.io/"

/-- Modelled from the spec: the workload-identifying reserved label key prefix
(source constant `TemplateWorkloadLabelPrefix`). -/
def TemplateWorkloadLabelPfx : String := "workload.template.kubevirt.io/"

/-- The label selector of reconcileOlderTemplates (lines 160-173):
category label equals "base" and version label not equal to the current
version (a NotEquals requirement also matches objects lacking the label). -/
def templatesSelectorMatches (current : String) (t : KObject) : Bool :=
  (lookupAL t.labels TemplateTypeLabel == some "base") &&
  ! (lookupAL t.labels TemplateVersionLabel == some current)

/-- The client List call of reconcileOlderTemplates (lines 175-179): templates
in the request namespace matching the selector, or the injected fault. -/
def listTemplates (c : Client) (current reqNs : String) :
    Except KError (List KObject) :=
  match c.listFault with
  | some e => Except.error e
  | none => Except.ok (c.store.filter (fun t =>
      t.kind == "Template" && t.ns == reqNs && templatesSelectorMatches current t))

/-- Whether a label key carries one of the three reserved prefixes
(lines 200-202). -/
def isReservedLabelKey (k : String) : Bool :=
  k.startsWith TemplateOsLabelPfx ||
  k.startsWith TemplateFlavorLabelPfx ||
  k.startsWith TemplateWorkloadLabelPfx

/-- The in-place mutation of a listed template (lines 189-192): make sure the
annotation map exists and set the deprecated annotation to "true". -/
def deprecateTemplate (t : KObject) : KObject :=
  { t with annotations := setAL t.annotations TemplateDeprecatedKey "true" }

/-- The UpdateFunc of a migration operation (lines 197-206): delete every
reserved-prefix label key from the found template. -/
def stripReservedLabels (_d found : KObject) : KObject :=
  { found with labels := found.labels.filter (fun kv => ! isReservedLabelKey kv.1) }

/-- One migration operation; `desired` is the object reference the generated
closure captured (its own listed template, annotated as deprecated). -/
structure MigOp where
  desired : KObject
  deriving DecidableEq, Repr

def mkMigOp (t : KObject) : MigOp := ⟨deprecateTemplate t⟩

/-- Executing one migration operation (lines 193-208): CreateOrUpdate of the
captured template with the label-stripping UpdateFunc. -/
def runMigOp (op : MigOp) (s : Store) : ReconcileResult :=
  ReconcileOne op.desired stripReservedLabels s

def migOpFunc (op : MigOp) : ReconcileFunc Store :=
  fun s => let r := runMigOp op s; (r.store, r.status, none)

/-- reconcileOlderTemplates (lines 158-212): list the stale base templates of
the request namespace — a NotFound list error is accepted and yields no
operations — and produce one operation per listed template. -/
def reconcileOlderTemplates (c : Client) (current reqNs : String) :
    Except KError (List MigOp) :=
  match listTemplates c current reqNs with
  | Except.error e => if e.notFound then Except.ok [] else Except.error e
  | Except.ok items => Except.ok (items.map mkMigOp)

/-- Outcome of the one-time bundle load: the loaded templates, or a panic. -/
inductive LoadOutcome
  | fatal (msg : String)
  | loaded (ts : List KObject)
  deriving DecidableEq, Repr

/-- The once-guarded bundle load (lines 215-228): `loadTemplatesOnce.Do`.
`read` abstracts `ReadTemplates` on the file derived from the version (file
parsing is an external collaborator); `cache` is the global `templatesBundle`
together with the once-flag; the returned number counts executions of the
underlying load. A read error or an empty bundle panics (fatal). -/
def loadTemplatesStep (read : String → Except KError (List KObject))
    (version : String) (cache : Option (List KObject)) :
    Option (List KObject) × LoadOutcome × Nat :=
  match cache with
  | some ts => (some ts, LoadOutcome.loaded ts, 0)
  | none =>
    match read version with
    | Except.error _ =>
      (none, LoadOutcome.fatal "Error reading from template bundle", 1)
    | Except.ok ts =>
      if ts.length = 0 then
        (none, LoadOutcome.fatal "No templates could be found in the installed bundle", 1)
      else (some ts, LoadOutcome.loaded ts, 1)

/-- The UpdateFunc for bundle templates (lines 239-244): copy Objects and
Parameters (the payload) from the new template into the found one. -/
def templateUpdateMerge (d found : KObject) : KObject :=
  { found with payload := d.payload }

def mkTemplateFunc (t : KObject) : ReconcileFunc Store :=
  fun s => let r := ReconcileOne t templateUpdateMerge s; (r.store, r.status, none)

/-- reconcileTemplatesFuncs (lines 214-249): run the once-load, then set every
cached template's namespace to the request namespace — an in-place mutation of
the shared cache, which the first component of the result reflects — and build
one operation per cached template. -/
def reconcileTemplatesFuncs (read : String → Except KError (List KObject))
    (version reqNs : String) (cache : Option (List KObject)) :
    Option (List KObject) × Except String (List (ReconcileFunc Store)) :=
  match loadTemplatesStep read version cache with
  | (c', LoadOutcome.fatal m, _) => (c', Except.error m)
  | (_, LoadOutcome.loaded ts, _) =>
    let ts' := ts.map (fun t => { t with ns := reqNs })
    (some ts', Except.ok (ts'.map mkTemplateFunc))

/-- Modelled from the spec: the source constant `GoldenImagesNSname`
(defined outside the given sources). -/
def GoldenImagesNSname : String := "kubevirt-os-images"

/-- Modelled from the spec: the static Namespace object built by
`newGoldenImagesNS` (constructor defined outside the given sources). -/
def newGoldenImagesNS (name : String) : KObject :=
  ⟨"Namespace", name, "", [], [], []⟩

/-- Modelled from the spec: the static Role built by `newViewRole`; its
payload stands for the rule list. -/
def newViewRole (inNs : String) : KObject :=
  ⟨"Role", "view", inNs, [], [], ["view-rules"]⟩

/-- Modelled from the spec: the static RoleBinding built by
`newViewRoleBinding`; its payload stands for the subjects and role ref. -/
def newViewRoleBinding (inNs : String) : KObject :=
  ⟨"RoleBinding", "view", inNs, [], [], ["view-subjects", "view-roleref"]⟩

/-- Modelled from the spec: the static ClusterRole built by `newEditRole`. -/
def newEditRole : KObject :=
  ⟨"ClusterRole", "edit", "", [], [], ["edit-rules"]⟩

/-- Merge used where the source supplies no UpdateFunc (reconcileGoldenImagesNS,
lines 114-119): the found object's own fields are kept. -/
def identityMerge (_d found : KObject) : KObject := found

/-- Merge of reconcileViewRole and reconcileEditRole (lines 125-129, 150-154):
copy the rule list (payload) from the new object. -/
def rulesCopyMerge (d found : KObject) : KObject :=
  { found with payload := d.payload }

/-- Merge of reconcileViewRoleBinding (lines 137-142): copy subjects and role
ref (payload) from the new object. -/
def bindingCopyMerge (d found : KObject) : KObject :=
  { found with payload := d.payload }

def reconcileGoldenImagesNS : ReconcileFunc Store :=
  fun s =>
    let r := ReconcileOne (newGoldenImagesNS GoldenImagesNSname) identityMerge s
    (r.store, r.status, none)

def reconcileViewRole : ReconcileFunc Store :=
  fun s =>
    let r := ReconcileOne (newViewRole GoldenImagesNSname) rulesCopyMerge s
    (r.store, r.status, none)

def reconcileViewRoleBinding : ReconcileFunc Store :=
  fun s =>
    let r := ReconcileOne (newViewRoleBinding GoldenImagesNSname) bindingCopyMerge s
    (r.store, r.status, none)

def reconcileEditRole : ReconcileFunc Store :=
  fun s =>
    let r := ReconcileOne newEditRole rulesCopyMerge s
    (r.store, r.status, none)

/-- The four fixed leading operations of Reconcile (lines 74-79). -/
def baseFuncs : List (ReconcileFunc Store) :=
  [reconcileGoldenImagesNS, reconcileViewRole, reconcileViewRoleBinding,
   reconcileEditRole]

/-- What a full reconciliation pass returns: the status list (`none` is Go's
nil slice of the early error return), the error, the client and the bundle
cache after the pass. -/
structure ReconcileOutput where
  statuses : Option (List ResourceStatus)
  err : Option KError
  client : Client
  cache : Option (List KObject)

/-- Reconcile (lines 73-90): build the four fixed operations, then the
migration operations — an error there returns (nil, err) at once — then the
bundle operations, and hand the whole ordered list to the aggregator. A panic
of the bundle load propagates as `Except.error`. -/
def Reconcile (read : String → Except KError (List KObject))
    (version reqNs : String) (cache : Option (List KObject)) (c : Client) :
    Except String ReconcileOutput :=
  match reconcileOlderTemplates c version reqNs with
  | Except.error e => Except.ok ⟨none, some e, c, cache⟩
  | Except.ok oldOps =>
    match reconcileTemplatesFuncs read version reqNs cache with
    | (_, Except.error m) => Except.error m
    | (cache', Except.ok tplFuncs) =>
      let funcs := baseFuncs ++ oldOps.map migOpFunc ++ tplFuncs
      let r := CollectResourceStatus funcs c.store
      Except.ok ⟨some r.statuses, r.err, { c with store := r.state }, cache'⟩

/-- One Delete call of the client: an injected fault if any; otherwise remove
the object when present, or report NotFound when absent. -/
def clientDelete (c : Client) (o : KObject) : Client × Option KError :=
  match c.deleteFault o with
  | some e => (c, some e)
  | none =>
    match getObj c.store (objKey o) with
    | some _ => ({ c with store := removeObj c.store (objKey o) }, none)
    | none => (c, some ⟨true, 404⟩)

/-- The deletion loop of Cleanup (lines 104-110): delete each object in order,
treating NotFound as success and aborting on any other error. The returned
number counts the Delete calls attempted. -/
def deleteAll (c : Client) : List KObject → Client × Option KError × Nat
  | [] => (c, none, 0)
  | o :: os =>
    match clientDelete c o with
    | (c', some e) =>
      if e.notFound then
        let r := deleteAll c' os
        (r.1, r.2.1, r.2.2 + 1)
      else (c', some e, 1)
    | (c', none) =>
      let r := deleteAll c' os
      (r.1, r.2.1, r.2.2 + 1)

/-- The object list Cleanup assembles (lines 93-103): the four fixed objects,
then every cached bundle template with its namespace set to the request
namespace. -/
def cleanupObjects (reqNs : String) (cache : Option (List KObject)) :
    List KObject :=
  [newGoldenImagesNS GoldenImagesNSname, newViewRole GoldenImagesNSname,
   newViewRoleBinding GoldenImagesNSname, newEditRole]
  ++ (cache.getD []).map (fun t => { t with ns := reqNs })

/-- Cleanup (lines 92-112). Setting the namespaces mutates the shared bundle
cache in place; the first component of the result reflects that. -/
def Cleanup (reqNs : String) (cache : Option (List KObject)) (c : Client) :
    Option (List KObject) × Client × Option KError × Nat :=
  let cache' := cache.map (fun ts => ts.map (fun t => { t with ns := reqNs }))
  let r := deleteAll c (cleanupObjects reqNs cache)
  (cache', r.1, r.2.1, r.2.2)

/-- An operation for exercising the aggregator: appends its index to a trace
and returns a fixed status and error. -/
def traceOp (idx : Nat) (st : ResourceStatus) (e : Option KError) :
    ReconcileFunc (List Nat) :=
  fun tr => (tr ++ [idx], st, e)

/-- Turn a list of (status, error) specifications into indexed trace
operations. -/
def mkTraceOps (specs : List (ResourceStatus × Option KError)) :
    List (ReconcileFunc (List Nat)) :=
  specs.enum.map (fun p => traceOp p.1 p.2.1 p.2.2)

/-- First-some choice on options, used to state lookup laws. -/
def orElseO (a b : Option String) : Option String :=
  match a with
  | some v => some v
  | none => b

theorem orElseO_none_right (a : Option String) : orElseO a none = a := by
  cases a <;> rfl

theorem map_self {α : Type} (f : α → α) :
    ∀ l : List α, (∀ a ∈ l, f a = a) → l.map f = l := by
  intro l
  induction l with
  | nil => intro _; rfl
  | cons x xs ih =>
    intro h
    simp only [List.map_cons]
    rw [h x (List.mem_cons_self x xs), ih (fun a ha => h a (List.mem_cons_of_mem x ha))]

theorem filter_empty_of {α : Type} (p : α → Bool) :
    ∀ l : List α, (∀ a ∈ l, p a = false) → l.filter p = [] := by
  intro l
  induction l with
  | nil => intro _; rfl
  | cons x xs ih =>
    intro h
    simp only [List.filter_cons, h x (List.mem_cons_self x xs)]
    exact ih (fun a ha => h a (List.mem_cons_of_mem x ha))

theorem lookupAL_append (l₁ l₂ : List (String × String)) (k : String) :
    lookupAL (l₁ ++ l₂) k = orElseO (lookupAL l₁ k) (lookupAL l₂ k) := by
  induction l₁ with
  | nil => rfl
  | cons kv rest ih =>
    simp only [List.cons_append, lookupAL]
    by_cases h : kv.1 = k
    · simp [h, orElseO]
    · simp [h, ih]

theorem containsKey_cons (kv : String × String) (l : List (String × String))
    (k : String) : containsKey (kv :: l) k = ((kv.1 == k) || containsKey l k) := by
  simp [containsKey]

theorem containsKey_eq_isSome (l : List (String × String)) (k : String) :
    containsKey l k = (lookupAL l k).isSome := by
  induction l with
  | nil => rfl
  | cons kv rest ih =>
    rw [containsKey_cons]
    simp only [lookupAL]
    by_cases h : kv.1 = k
    · simp [h]
    · simp [h, ih, Ne.symm h]

theorem lookupAL_eq_none_of_not_contains {l : List (String × String)} {k : String}
    (h : containsKey l k = false) : lookupAL l k = none := by
  rw [containsKey_eq_isSome] at h
  cases hl : lookupAL l k
  · rfl
  · rw [hl] at h; simp at h

theorem mem_containsKey {kv : String × String} {l : List (String × String)}
    (h : kv ∈ l) : containsKey l kv.1 = true := by
  induction l with
  | nil => cases h
  | cons x xs ih =>
    rw [containsKey_cons]
    rcases List.mem_cons.mp h with h' | h'
    · subst h'; simp
    · simp [ih h']

theorem lookupAL_of_nodup_mem {l : List (String × String)}
    (hn : keysNodup l) {kv : String × String} (h : kv ∈ l) :
    lookupAL l kv.1 = some kv.2 := by
  induction l with
  | nil => cases h
  | cons x xs ih =>
    unfold keysNodup at hn
    simp only [List.map_cons, List.nodup_cons] at hn
    rcases List.mem_cons.mp h with h' | h'
    · subst h'; simp [lookupAL]
    · have hne : x.1 ≠ kv.1 := by
        intro he
        exact hn.1 (he ▸ List.mem_map_of_mem Prod.fst h')
      simp only [lookupAL, hne, if_false]
      exact ih hn.2 h'

theorem overrideWith_fst (o : List (String × String)) (kv : String × String) :
    (overrideWith o kv).1 = kv.1 := by
  unfold overrideWith
  cases h : lookupAL o kv.1 <;> simp

theorem overrideWith_idem (o : List (String × String)) (kv : String × String) :
    overrideWith o (overrideWith o kv) = overrideWith o kv := by
  unfold overrideWith
  cases h : lookupAL o kv.1 <;> simp [h]

theorem lookupAL_map_overrideWith (o l : List (String × String)) (k : String) :
    lookupAL (l.map (overrideWith o)) k =
      match lookupAL l k with
      | none => none
      | some v =>
        some (match lookupAL o k with
              | some w => w
              | none => v) := by
  induction l with
  | nil => rfl
  | cons kv rest ih =>
    simp only [List.map_cons, lookupAL, overrideWith_fst]
    by_cases h : kv.1 = k
    · subst h
      unfold overrideWith
      cases ho : lookupAL o kv.1 <;> simp [ho]
    · simp [h, ih]

theorem lookupAL_filter_key (p : String → Bool) (l : List (String × String))
    (k : String) :
    lookupAL (l.filter (fun kv => p kv.1)) k =
      if p k = true then lookupAL l k else none := by
  induction l with
  | nil => simp [lookupAL]
  | cons kv rest ih =>
    simp only [List.filter_cons]
    by_cases hp : p kv.1
    · simp only [hp, if_true, lookupAL]
      by_cases h : kv.1 = k
      · subst h; simp [hp]
      · simp [h, ih]
    · have hp' : p kv.1 = false := by
        cases hx : p kv.1
        · rfl
        · exact absurd hx hp
      simp only [hp', Bool.false_eq_true, if_false]
      rw [ih]
      by_cases h : kv.1 = k
      · subst h
        simp [hp']
      · simp [lookupAL, h]

theorem lookupAL_unionAL (o b : List (String × String)) (k : String) :
    lookupAL (unionAL o b) k = orElseO (lookupAL o k) (lookupAL b k) := by
  unfold unionAL
  rw [lookupAL_append, lookupAL_map_overrideWith,
    lookupAL_filter_key (fun x => ! containsKey b x) o k]
  cases hb : lookupAL b k with
  | none =>
    have hcb : containsKey b k = false := by
      rw [containsKey_eq_isSome, hb]; rfl
    simp only [hcb, Bool.not_false, if_true, orElseO]
    cases ho : lookupAL o k <;> simp [orElseO]
  | some v =>
    have hcb : containsKey b k = true := by
      rw [containsKey_eq_isSome, hb]; rfl
    simp only [hcb, Bool.not_true, orElseO]
    cases ho : lookupAL o k <;> simp [orElseO]

theorem containsKey_unionAL (o b : List (String × String)) (k : String) :
    containsKey (unionAL o b) k = (containsKey o k || containsKey b k) := by
  rw [containsKey_eq_isSome, containsKey_eq_isSome, containsKey_eq_isSome,
    lookupAL_unionAL]
  cases ho : lookupAL o k <;> cases hb : lookupAL b k <;> simp [orElseO]

theorem overrideWith_mem_unionAL {o : List (String × String)} (hn : keysNodup o)
    (b : List (String × String)) :
    ∀ kv ∈ unionAL o b, overrideWith o kv = kv := by
  intro kv hkv
  unfold unionAL at hkv
  rcases List.mem_append.mp hkv with h | h
  · rcases List.mem_map.mp h with ⟨u, _, rfl⟩
    exact overrideWith_idem o u
  · have hmem : kv ∈ o := (List.mem_filter.mp h).1
    unfold overrideWith
    rw [lookupAL_of_nodup_mem hn hmem]

theorem unionAL_self {x : List (String × String)} (hn : keysNodup x) :
    unionAL x x = x := by
  unfold unionAL
  rw [filter_empty_of _ x (fun kv hkv => by simp [mem_containsKey hkv]),
    List.append_nil]
  exact map_self _ x (fun kv hkv => by
    unfold overrideWith
    rw [lookupAL_of_nodup_mem hn hkv])

theorem containsKey_map_overrideWith (o l : List (String × String)) (k : String) :
    containsKey (l.map (overrideWith o)) k = containsKey l k := by
  rw [containsKey_eq_isSome, containsKey_eq_isSome, lookupAL_map_overrideWith]
  cases h : lookupAL l k <;> simp

theorem filter_all_of {α : Type} (p : α → Bool) :
    ∀ l : List α, (∀ a ∈ l, p a = true) → l.filter p = l := by
  intro l
  induction l with
  | nil => intro _; rfl
  | cons x xs ih =>
    intro h
    simp only [List.filter_cons, h x (List.mem_cons_self x xs), if_true]
    rw [ih (fun a ha => h a (List.mem_cons_of_mem x ha))]

theorem unionAL_nil (o : List (String × String)) : unionAL o [] = o := by
  calc unionAL o []
      = ([] : List (String × String)).map (overrideWith o)
        ++ o.filter (fun kv => ! containsKey [] kv.1) := rfl
    _ = o.filter (fun kv => ! containsKey [] kv.1) := by simp only [List.map_nil,
        List.nil_append]
    _ = o := filter_all_of _ o (fun kv _ => rfl)

theorem unionAL_absorb {o : List (String × String)} (hn : keysNodup o)
    (b : List (String × String)) : unionAL o (unionAL o b) = unionAL o b := by
  calc unionAL o (unionAL o b)
      = (unionAL o b).map (overrideWith o)
        ++ o.filter (fun kv => ! containsKey (unionAL o b) kv.1) := rfl
    _ = unionAL o b ++ [] := by
        rw [map_self _ _ (overrideWith_mem_unionAL hn b),
          filter_empty_of _ o (fun kv hkv => by
            rw [containsKey_unionAL]
            simp [mem_containsKey hkv])]
    _ = unionAL o b := List.append_nil _

theorem unionAL_stable {a d : List (String × String)} (ha : keysNodup a)
    (hd : keysNodup d) (x : List (String × String)) :
    unionAL a (unionAL d (unionAL a (unionAL d x))) = unionAL a (unionAL d x) := by
  set U := unionAL d x with hU
  set M := unionAL a U with hM
  have h1 : unionAL d M = M.map (overrideWith d) := by
    calc unionAL d M
        = M.map (overrideWith d) ++ d.filter (fun kv => ! containsKey M kv.1) := rfl
      _ = M.map (overrideWith d) ++ [] := by
          rw [filter_empty_of _ d (fun kv hkv => by
            rw [hM, containsKey_unionAL, hU, containsKey_unionAL,
              mem_containsKey hkv]
            simp)]
      _ = M.map (overrideWith d) := List.append_nil _
  have h2 : unionAL a (M.map (overrideWith d))
      = (M.map (overrideWith d)).map (overrideWith a) := by
    calc unionAL a (M.map (overrideWith d))
        = (M.map (overrideWith d)).map (overrideWith a)
          ++ a.filter (fun kv => ! containsKey (M.map (overrideWith d)) kv.1) := rfl
      _ = (M.map (overrideWith d)).map (overrideWith a) ++ [] := by
          rw [filter_empty_of _ a (fun kv hkv => by
            rw [containsKey_map_overrideWith, hM, containsKey_unionAL,
              mem_containsKey hkv]
            simp)]
      _ = (M.map (overrideWith d)).map (overrideWith a) := List.append_nil _
  have hpt : ∀ kv ∈ M, overrideWith a (overrideWith d kv) = kv := by
    intro kv hkv
    have hAkv : overrideWith a kv = kv := overrideWith_mem_unionAL ha U kv hkv
    cases hdk : lookupAL d kv.1 with
    | none =>
      have hid : overrideWith d kv = kv := by unfold overrideWith; rw [hdk]
      rw [hid]; exact hAkv
    | some vd =>
      have hod : overrideWith d kv = (kv.1, vd) := by unfold overrideWith; rw [hdk]
      rw [hod]
      cases hak : lookupAL a kv.1 with
      | some va =>
        have h₁ : overrideWith a (kv.1, vd) = (kv.1, va) := by
          unfold overrideWith; rw [hak]
        rw [h₁]
        have h₂ := hAkv
        unfold overrideWith at h₂
        rw [hak] at h₂
        exact h₂
      | none =>
        have h₁ : overrideWith a (kv.1, vd) = (kv.1, vd) := by
          unfold overrideWith; rw [hak]
        rw [h₁]
        rw [hM] at hkv
        unfold unionAL at hkv
        rcases List.mem_append.mp hkv with hmem | hmem
        · rcases List.mem_map.mp hmem with ⟨u, huU, hequ⟩
          have hkey : u.1 = kv.1 := by rw [← hequ, overrideWith_fst]
          have hua : overrideWith a u = u := by
            unfold overrideWith; rw [hkey, hak]
          have hkvu : kv = u := by rw [← hequ, hua]
          have hDkv : overrideWith d kv = kv :=
            overrideWith_mem_unionAL hd x kv (hkvu ▸ huU)
          rw [hod] at hDkv
          exact hDkv
        · have hkva : kv ∈ a := (List.mem_filter.mp hmem).1
          have hca := mem_containsKey hkva
          rw [containsKey_eq_isSome, hak] at hca
          simp at hca
  calc unionAL a (unionAL d M)
      = unionAL a (M.map (overrideWith d)) := by rw [h1]
    _ = (M.map (overrideWith d)).map (overrideWith a) := h2
    _ = M.map (overrideWith a ∘ overrideWith d) := by rw [List.map_map]
    _ = M := map_self _ M hpt

theorem getObj_key : ∀ {s : Store} {k : String × String × String} {e : KObject},
    getObj s k = some e → objKey e = k := by
  intro s
  induction s with
  | nil => intro k e h; cases h
  | cons o rest ih =>
    intro k e h
    simp only [getObj] at h
    by_cases ho : objKey o = k
    · rw [if_pos ho] at h
      cases h
      exact ho
    · rw [if_neg ho] at h
      exact ih h

theorem getObj_of_nodup_mem : ∀ {s : Store}, (s.map objKey).Nodup →
    ∀ {t : KObject}, t ∈ s → getObj s (objKey t) = some t := by
  intro s
  induction s with
  | nil => intro _ t ht; cases ht
  | cons o rest ih =>
    intro hn t ht
    simp only [List.map_cons, List.nodup_cons] at hn
    rcases List.mem_cons.mp ht with h' | h'
    · subst h'
      simp [getObj]
    · have hne : objKey o ≠ objKey t := by
        intro he
        exact hn.1 (he ▸ List.mem_map_of_mem objKey h')
      simp only [getObj, if_neg hne]
      exact ih hn.2 h'

theorem getObj_updateObj_same : ∀ {s : Store} {k : String × String × String}
    {e : KObject}, getObj s k = some e → ∀ {o' : KObject}, objKey o' = k →
    getObj (updateObj s k o') k = some o' := by
  intro s
  induction s with
  | nil => intro k e h; cases h
  | cons o rest ih =>
    intro k e h o' ho
    simp only [getObj] at h
    simp only [updateObj, List.map_cons]
    by_cases hko : objKey o = k
    · simp only [if_pos hko, getObj, if_pos ho]
    · rw [if_neg hko] at h
      simp only [if_neg hko, getObj, if_neg hko]
      exact ih h ho

theorem getObj_updateObj_other : ∀ {s : Store} {k k' : String × String × String},
    k' ≠ k → ∀ {o' : KObject}, objKey o' = k →
    getObj (updateObj s k o') k' = getObj s k' := by
  intro s
  induction s with
  | nil => intro k k' _ o' _; rfl
  | cons o rest ih =>
    intro k k' hne o' ho
    simp only [updateObj, List.map_cons]
    by_cases hko : objKey o = k
    · have h₁ : objKey o' ≠ k' := by rw [ho]; exact fun he => hne he.symm
      have h₂ : objKey o ≠ k' := by rw [hko]; exact fun he => hne he.symm
      simp only [if_pos hko, getObj, if_neg h₁, if_neg h₂]
      exact ih hne ho
    · simp only [if_neg hko, getObj]
      by_cases hk' : objKey o = k'
      · simp [hk']
      · simp only [if_neg hk']
        exact ih hne ho

theorem getObj_append_none_self : ∀ {s : Store} {k : String × String × String},
    getObj s k = none → ∀ {o : KObject}, objKey o = k →
    getObj (s ++ [o]) k = some o := by
  intro s
  induction s with
  | nil => intro k _ o ho; simp [getObj, ho]
  | cons x rest ih =>
    intro k h o ho
    simp only [getObj] at h
    by_cases hx : objKey x = k
    · rw [if_pos hx] at h; cases h
    · rw [if_neg hx] at h
      simp only [List.cons_append, getObj, if_neg hx]
      exact ih h ho

theorem getObj_append_other : ∀ {s : Store} {k : String × String × String}
    {o : KObject}, objKey o ≠ k → getObj (s ++ [o]) k = getObj s k := by
  intro s
  induction s with
  | nil => intro k o ho; simp [getObj, ho]
  | cons x rest ih =>
    intro k o ho
    simp only [List.cons_append, getObj]
    by_cases hx : objKey x = k
    · simp [hx]
    · simp only [if_neg hx]
      exact ih ho

theorem appLabels_nodup : keysNodup appLabels := by decide

/-- The spec's merge-policy contract (spec 4.1): a kind-specific merge function
either performs no merge, or replaces the mutable fields (the payload) from
the desired object — "full field replace vs. no merge". -/
def MergeContract (f : KObject → KObject → KObject) : Prop :=
  (∀ d e, f d e = e) ∨ (∀ d e, f d e = { e with payload := d.payload })

theorem mergeMetadata_idem (d e : KObject) (hL : keysNodup d.labels)
    (hA : keysNodup d.annotations) :
    mergeMetadata d (mergeMetadata d e) = mergeMetadata d e := by
  simp [mergeMetadata, unionAL_stable appLabels_nodup hL, unionAL_absorb hA]

theorem mergeMetadata_withAppLabels (d : KObject) (hL : keysNodup d.labels)
    (hA : keysNodup d.annotations) :
    mergeMetadata d (withAppLabels d) = withAppLabels d := by
  have hlab : unionAL appLabels (unionAL d.labels (unionAL appLabels d.labels))
      = unionAL appLabels d.labels := by
    have h := unionAL_stable appLabels_nodup hL ([] : List (String × String))
    rw [unionAL_nil d.labels] at h
    exact h
  simp [mergeMetadata, withAppLabels, hlab, unionAL_self hA]

theorem merged_stable {f : KObject → KObject → KObject} (hc : MergeContract f)
    (d e : KObject) (hL : keysNodup d.labels) (hA : keysNodup d.annotations) :
    f d (mergeMetadata d (f d (mergeMetadata d e))) = f d (mergeMetadata d e) := by
  rcases hc with hid | hcp
  · simp only [hid]
    exact mergeMetadata_idem d e hL hA
  · simp only [hcp]
    simp [mergeMetadata, unionAL_stable appLabels_nodup hL, unionAL_absorb hA]

theorem merged_withApp {f : KObject → KObject → KObject} (hc : MergeContract f)
    (d : KObject) (hL : keysNodup d.labels) (hA : keysNodup d.annotations) :
    f d (mergeMetadata d (withAppLabels d)) = withAppLabels d := by
  rcases hc with hid | hcp
  · simp only [hid]
    exact mergeMetadata_withAppLabels d hL hA
  · simp only [hcp]
    rw [mergeMetadata_withAppLabels d hL hA]
    simp [withAppLabels]

theorem objKey_merged {f : KObject → KObject → KObject} (hc : MergeContract f)
    (d e : KObject) : objKey (f d e) = objKey e := by
  rcases hc with hid | hcp
  · rw [hid]
  · rw [hcp]; rfl

theorem objKey_mergeMetadata (d e : KObject) :
    objKey (mergeMetadata d e) = objKey e := rfl

theorem objKey_withAppLabels (d : KObject) :
    objKey (withAppLabels d) = objKey d := rfl

/-- Claim C6: for every desired object D and merge function f obeying the
spec's merge contract, calling the create-or-update reconcile operation twice
with D unchanged and no external store change between the calls yields Created
then Unchanged (or Unchanged then Unchanged if D was already present in its
reconciled form), and the second call performs no write to the store: it
returns Unchanged, reports no write, and leaves the store identical. -/
theorem claim_C6_reconcileOne_idempotent
    (d : KObject) (f : KObject → KObject → KObject) (s₀ : Store)
    (hc : MergeContract f) (hL : keysNodup d.labels)
    (hA : keysNodup d.annotations) :
    (ReconcileOne d f (ReconcileOne d f s₀).store).status = ResourceStatus.Unchanged
    ∧ (ReconcileOne d f (ReconcileOne d f s₀).store).wrote = false
    ∧ (ReconcileOne d f (ReconcileOne d f s₀).store).store = (ReconcileOne d f s₀).store
    ∧ (getObj s₀ (objKey d) = none →
        (ReconcileOne d f s₀).status = ResourceStatus.Created)
    ∧ (∀ e, getObj s₀ (objKey d) = some e → f d (mergeMetadata d e) = e →
        (ReconcileOne d f s₀).status = ResourceStatus.Unchanged
        ∧ (ReconcileOne d f s₀).wrote = false) := by
  cases h₀ : getObj s₀ (objKey d) with
  | none =>
    have hr₁ : ReconcileOne d f s₀
        = ⟨s₀ ++ [withAppLabels d], ResourceStatus.Created, true⟩ := by
      simp [ReconcileOne, h₀]
    have hget : getObj (s₀ ++ [withAppLabels d]) (objKey d)
        = some (withAppLabels d) :=
      getObj_append_none_self h₀ (objKey_withAppLabels d)
    have hr₂ : ReconcileOne d f (s₀ ++ [withAppLabels d])
        = ⟨s₀ ++ [withAppLabels d], ResourceStatus.Unchanged, false⟩ := by
      simp [ReconcileOne, hget, merged_withApp hc d hL hA]
    refine ⟨?_, ?_, ?_, ?_, ?_⟩
    · rw [hr₁]; simp [hr₂]
    · rw [hr₁]; simp [hr₂]
    · rw [hr₁]; simp [hr₂]
    · intro _; rw [hr₁]
    · intro e he
      cases he
  | some e =>
    by_cases hme : f d (mergeMetadata d e) = e
    · have hr₁ : ReconcileOne d f s₀ = ⟨s₀, ResourceStatus.Unchanged, false⟩ := by
        simp [ReconcileOne, h₀, hme]
      refine ⟨?_, ?_, ?_, ?_, ?_⟩
      · rw [hr₁]; simp [hr₁]
      · rw [hr₁]; simp [hr₁]
      · rw [hr₁]; simp [hr₁]
      · intro h; cases h
      · intro e' _ _
        rw [hr₁]
        exact ⟨rfl, rfl⟩
    · have hkey : objKey (f d (mergeMetadata d e)) = objKey d := by
        rw [objKey_merged hc, objKey_mergeMetadata, getObj_key h₀]
      have hr₁ : ReconcileOne d f s₀
          = ⟨updateObj s₀ (objKey d) (f d (mergeMetadata d e)),
             ResourceStatus.Updated, true⟩ := by
        simp [ReconcileOne, h₀, hme]
      have hget : getObj (updateObj s₀ (objKey d) (f d (mergeMetadata d e)))
          (objKey d) = some (f d (mergeMetadata d e)) :=
        getObj_updateObj_same h₀ hkey
      have hr₂ : ReconcileOne d f
          (updateObj s₀ (objKey d) (f d (mergeMetadata d e)))
          = ⟨updateObj s₀ (objKey d) (f d (mergeMetadata d e)),
             ResourceStatus.Unchanged, false⟩ := by
        simp [ReconcileOne, hget, merged_stable hc d e hL hA]
      refine ⟨?_, ?_, ?_, ?_, ?_⟩
      · rw [hr₁]; simp [hr₂]
      · rw [hr₁]; simp [hr₂]
      · rw [hr₁]; simp [hr₂]
      · intro h; cases h
      · intro e' he' hst
        cases he'
        exact absurd hst hme

/-- A concrete desired Role used by the idempotence witness. -/
def wDesired : KObject :=
  ⟨"Role", "r", "ns1", [("a", "1")], [("b", "2")], ["p"]⟩

/-- Witness for claim C6 at a concrete desired object, the rules-copying merge
function, and the empty store: all hypotheses hold and the theorem applies. -/
theorem claim_C6_witness :
    MergeContract rulesCopyMerge
    ∧ keysNodup (wDesired).labels
    ∧ keysNodup (wDesired).annotations
    ∧ ((ReconcileOne wDesired rulesCopyMerge
          (ReconcileOne wDesired rulesCopyMerge []).store).status
            = ResourceStatus.Unchanged
      ∧ (ReconcileOne wDesired rulesCopyMerge
          (ReconcileOne wDesired rulesCopyMerge []).store).wrote = false
      ∧ (ReconcileOne wDesired rulesCopyMerge
          (ReconcileOne wDesired rulesCopyMerge []).store).store
            = (ReconcileOne wDesired rulesCopyMerge []).store
      ∧ (getObj [] (objKey wDesired) = none →
          (ReconcileOne wDesired rulesCopyMerge []).status
            = ResourceStatus.Created)
      ∧ (∀ e, getObj [] (objKey wDesired) = some e →
          rulesCopyMerge wDesired (mergeMetadata wDesired e) = e →
          (ReconcileOne wDesired rulesCopyMerge []).status
            = ResourceStatus.Unchanged
          ∧ (ReconcileOne wDesired rulesCopyMerge []).wrote = false)) :=
  ⟨Or.inr (fun _ _ => rfl), by decide, by decide,
   claim_C6_reconcileOne_idempotent wDesired rulesCopyMerge []
     (Or.inr (fun _ _ => rfl)) (by decide) (by decide)⟩

/-- The templates the migration list query selects (lines 175-179): objects of
template kind in the request namespace matching the base/not-current-version
selector. -/
def staleTemplates (c : Client) (current reqNs : String) : List KObject :=
  c.store.filter (fun t =>
    t.kind == "Template" && t.ns == reqNs && templatesSelectorMatches current t)

theorem listTemplates_ok (c : Client) (current reqNs : String)
    (hf : c.listFault = none) :
    listTemplates c current reqNs = Except.ok (staleTemplates c current reqNs) := by
  simp [listTemplates, staleTemplates, hf]

theorem reconcileOlderTemplates_ok (c : Client) (current reqNs : String)
    (hf : c.listFault = none) :
    reconcileOlderTemplates c current reqNs
      = Except.ok ((staleTemplates c current reqNs).map mkMigOp) := by
  simp [reconcileOlderTemplates, listTemplates_ok c current reqNs hf]

theorem staleTemplates_mem (c : Client) (current reqNs : String) (t : KObject) :
    t ∈ staleTemplates c current reqNs ↔
      t ∈ c.store ∧ t.kind = "Template" ∧ t.ns = reqNs
      ∧ lookupAL t.labels TemplateTypeLabel = some "base"
      ∧ lookupAL t.labels TemplateVersionLabel ≠ some current := by
  unfold staleTemplates templatesSelectorMatches
  rw [List.mem_filter]
  simp [and_assoc]

theorem lookupAL_overwrite (k v : String) : ∀ l : List (String × String),
    containsKey l k = true →
    lookupAL (l.map (fun kv => if kv.1 = k then (k, v) else kv)) k = some v := by
  intro l
  induction l with
  | nil => intro h; simp [containsKey] at h
  | cons kv rest ih =>
    intro h
    simp only [List.map_cons]
    by_cases hk : kv.1 = k
    · simp [hk, lookupAL]
    · rw [containsKey_cons] at h
      have hbeq : (kv.1 == k) = false := by simp [hk]
      rw [hbeq, Bool.false_or] at h
      simp only [if_neg hk, lookupAL, hk, if_false]
      exact ih h

theorem lookupAL_setAL_self (l : List (String × String)) (k v : String) :
    lookupAL (setAL l k v) k = some v := by
  unfold setAL
  by_cases h : containsKey l k
  · rw [if_pos h]
    exact lookupAL_overwrite k v l h
  · rw [if_neg h]
    rw [lookupAL_append, lookupAL_eq_none_of_not_contains (Bool.eq_false_iff.mpr h)]
    simp [lookupAL, orElseO]

theorem deprecate_lookup (t : KObject) :
    lookupAL (deprecateTemplate t).annotations TemplateDeprecatedKey
      = some "true" :=
  lookupAL_setAL_self t.annotations TemplateDeprecatedKey "true"

theorem migMerged_deprecated (d e : KObject)
    (hd : lookupAL d.annotations TemplateDeprecatedKey = some "true") :
    lookupAL (stripReservedLabels d (mergeMetadata d e)).annotations
      TemplateDeprecatedKey = some "true" := by
  show lookupAL (unionAL d.annotations e.annotations) TemplateDeprecatedKey
    = some "true"
  rw [lookupAL_unionAL, hd]
  rfl

theorem migMerged_noReserved (d e : KObject) :
    ∀ kv ∈ (stripReservedLabels d (mergeMetadata d e)).labels,
      isReservedLabelKey kv.1 = false := by
  intro kv hkv
  have h := (List.mem_filter.mp hkv).2
  cases hres : isReservedLabelKey kv.1
  · rfl
  · rw [hres] at h; simp at h

theorem runMigOp_getObj_self {op : MigOp} {s : Store} {e : KObject}
    (h : getObj s (objKey op.desired) = some e) :
    getObj ((runMigOp op s).store) (objKey op.desired)
      = some (stripReservedLabels op.desired (mergeMetadata op.desired e)) := by
  have hkey₀ : objKey (stripReservedLabels op.desired (mergeMetadata op.desired e))
      = objKey e := rfl
  have hkey : objKey (stripReservedLabels op.desired (mergeMetadata op.desired e))
      = objKey op.desired := hkey₀.trans (getObj_key h)
  by_cases heq : stripReservedLabels op.desired (mergeMetadata op.desired e) = e
  · have hs : (runMigOp op s).store = s := by
      simp [runMigOp, ReconcileOne, h, heq]
    rw [hs, heq]
    exact h
  · have hs : (runMigOp op s).store
        = updateObj s (objKey op.desired)
            (stripReservedLabels op.desired (mergeMetadata op.desired e)) := by
      simp [runMigOp, ReconcileOne, h, heq]
    rw [hs]
    exact getObj_updateObj_same h hkey

theorem runMigOp_frame {op : MigOp} {s : Store} {k : String × String × String}
    (hk : k ≠ objKey op.desired) :
    getObj ((runMigOp op s).store) k = getObj s k := by
  cases h : getObj s (objKey op.desired) with
  | none =>
    have hs : (runMigOp op s).store = s ++ [withAppLabels op.desired] := by
      simp [runMigOp, ReconcileOne, h]
    rw [hs]
    apply getObj_append_other
    rw [objKey_withAppLabels]
    exact fun he => hk he.symm
  | some e =>
    have hkey₀ : objKey (stripReservedLabels op.desired (mergeMetadata op.desired e))
        = objKey e := rfl
    have hkey : objKey (stripReservedLabels op.desired (mergeMetadata op.desired e))
        = objKey op.desired := hkey₀.trans (getObj_key h)
    by_cases heq : stripReservedLabels op.desired (mergeMetadata op.desired e) = e
    · have hs : (runMigOp op s).store = s := by
        simp [runMigOp, ReconcileOne, h, heq]
      rw [hs]
    · have hs : (runMigOp op s).store
          = updateObj s (objKey op.desired)
              (stripReservedLabels op.desired (mergeMetadata op.desired e)) := by
        simp [runMigOp, ReconcileOne, h, heq]
      rw [hs]
      exact getObj_updateObj_other hk hkey

/-- The cumulative store effect of executing the migration operations in
order. -/
def runMigOps (ops : List MigOp) (s : Store) : Store :=
  ops.foldl (fun s' op => (runMigOp op s').store) s

theorem collect_migOps_state : ∀ (ops : List MigOp) (s : Store),
    (CollectResourceStatus (ops.map migOpFunc) s).state = runMigOps ops s := by
  intro ops
  induction ops with
  | nil => intro s; rfl
  | cons op ops' ih =>
    intro s
    simp only [List.map_cons, CollectResourceStatus, migOpFunc]
    exact ih ((runMigOp op s).store)

theorem runMigOps_frame : ∀ (ops : List MigOp) (s : Store)
    (k : String × String × String), (∀ op ∈ ops, k ≠ objKey op.desired) →
    getObj (runMigOps ops s) k = getObj s k := by
  intro ops
  induction ops with
  | nil => intro s k _; rfl
  | cons op ops' ih =>
    intro s k hk
    have hstep : runMigOps (op :: ops') s = runMigOps ops' ((runMigOp op s).store) := rfl
    rw [hstep, ih _ k (fun o ho => hk o (List.mem_cons_of_mem op ho)),
      runMigOp_frame (hk op (List.mem_cons_self op ops'))]

theorem runMigOps_each : ∀ (ts : List KObject) (s : Store),
    (ts.map objKey).Nodup →
    (∀ t ∈ ts, getObj s (objKey t) = some t) →
    ∀ t ∈ ts, getObj (runMigOps (ts.map mkMigOp) s) (objKey t)
      = some (stripReservedLabels (deprecateTemplate t)
               (mergeMetadata (deprecateTemplate t) t)) := by
  intro ts
  induction ts with
  | nil => intro s _ _ t ht; cases ht
  | cons t₀ ts' ih =>
    intro s hnd hpres t ht
    simp only [List.map_cons, List.nodup_cons] at hnd
    have hstep : runMigOps ((t₀ :: ts').map mkMigOp) s
        = runMigOps (ts'.map mkMigOp) ((runMigOp (mkMigOp t₀) s).store) := rfl
    rcases List.mem_cons.mp ht with rfl | hmem
    · rw [hstep, runMigOps_frame _ _ _ ?frameh]
      · exact runMigOp_getObj_self (hpres t (List.mem_cons_self t ts'))
      case frameh =>
        intro op hop
        rcases List.mem_map.mp hop with ⟨u, hu, rfl⟩
        show objKey t ≠ objKey (deprecateTemplate u)
        intro he
        have hmm : objKey u ∈ ts'.map objKey := List.mem_map_of_mem objKey hu
        have he' : objKey t = objKey u := he
        exact hnd.1 (he'.symm ▸ hmm)
    · rw [hstep]
      refine ih _ hnd.2 ?_ t hmem
      intro t' ht'
      rw [runMigOp_frame ?hne]
      · exact hpres t' (List.mem_cons_of_mem t₀ ht')
      case hne =>
        show objKey t' ≠ objKey (deprecateTemplate t₀)
        intro he
        have hmm : objKey t' ∈ ts'.map objKey := List.mem_map_of_mem objKey ht'
        have he' : objKey t' = objKey t₀ := he
        exact hnd.1 (he' ▸ hmm)

/-- Claim C3: planning a migration for version `current` selects, from the
target namespace, exactly the template objects whose category label equals
"base" and whose version label is not equal to `current`, producing one
operation per such object via `mkMigOp`; no produced operation carries a
current version label, and zero matches yields an empty plan, not an error. -/
theorem claim_C3_plan_selection (c : Client) (current reqNs : String)
    (hf : c.listFault = none) :
    reconcileOlderTemplates c current reqNs
      = Except.ok ((staleTemplates c current reqNs).map mkMigOp)
    ∧ (∀ t, t ∈ staleTemplates c current reqNs ↔
        t ∈ c.store ∧ t.kind = "Template" ∧ t.ns = reqNs
        ∧ lookupAL t.labels TemplateTypeLabel = some "base"
        ∧ lookupAL t.labels TemplateVersionLabel ≠ some current)
    ∧ (∀ op ∈ (staleTemplates c current reqNs).map mkMigOp,
        lookupAL op.desired.labels TemplateVersionLabel ≠ some current)
    ∧ (staleTemplates c current reqNs = [] →
        reconcileOlderTemplates c current reqNs = Except.ok []) := by
  refine ⟨reconcileOlderTemplates_ok c current reqNs hf,
    staleTemplates_mem c current reqNs, ?_, ?_⟩
  · intro op hop
    rcases List.mem_map.mp hop with ⟨t, ht, rfl⟩
    exact ((staleTemplates_mem c current reqNs t).mp ht).2.2.2.2
  · intro h0
    rw [reconcileOlderTemplates_ok c current reqNs hf, h0]
    rfl

/-- A stale base template carrying an OS reserved label. -/
def wTplA : KObject :=
  ⟨"Template", "t1", "ns1",
   [(TemplateTypeLabel, "base"), (TemplateVersionLabel, "v1"),
    ("os.template.kubevirt.io/rhel8", "true")], [], []⟩

/-- A stale base template carrying a flavor reserved label. -/
def wTplB : KObject :=
  ⟨"Template", "t2", "ns1",
   [(TemplateTypeLabel, "base"), (TemplateVersionLabel, "v1"),
    ("flavor.template.kubevirt.io/small", "true")], [("x", "y")], []⟩

/-- A third stale base template. -/
def wTplC : KObject :=
  ⟨"Template", "t3", "ns1",
   [(TemplateTypeLabel, "base"), (TemplateVersionLabel, "v0")], [], []⟩

/-- A base template already at the current version. -/
def wTplCur1 : KObject :=
  ⟨"Template", "t4", "ns1",
   [(TemplateTypeLabel, "base"), (TemplateVersionLabel, "v2")], [], []⟩

/-- Another current-version template. -/
def wTplCur2 : KObject :=
  ⟨"Template", "t5", "ns1", [(TemplateVersionLabel, "v2")], [], []⟩

/-- Client for the migration-selection witness: three stale and two
current-version templates. -/
def wClientC3 : Client := ⟨[wTplA, wTplB, wTplC, wTplCur1, wTplCur2], none,
  fun _ => none⟩

/-- Client for the closure-capture witness: two stale templates. -/
def wClientC1 : Client := ⟨[wTplA, wTplB], none, fun _ => none⟩

/-- Witness for claim C3 at the spec's example: a store with three stale base
templates and two current-version objects yields exactly the three stale ones. -/
theorem claim_C3_witness :
    wClientC3.listFault = none
    ∧ reconcileOlderTemplates wClientC3 "v2" "ns1"
        = Except.ok ((staleTemplates wClientC3 "v2" "ns1").map mkMigOp)
    ∧ (staleTemplates wClientC3 "v2" "ns1").map (fun t => t.name)
        = ["t1", "t2", "t3"] :=
  ⟨rfl, (claim_C3_plan_selection wClientC3 "v2" "ns1" rfl).1, by decide⟩

/-- Claim C4: a migration operation generated for a stale object, when
executed against a store holding that object, sets the deprecated annotation
to "true" on the stored object and removes every reserved-prefix label from
it, leaving no such label on the stored result. -/
theorem claim_C4_migration_op_effect (t e : KObject) (s : Store)
    (h : getObj s (objKey (mkMigOp t).desired) = some e) :
    ∃ u, getObj ((runMigOp (mkMigOp t) s).store) (objKey (mkMigOp t).desired)
        = some u
      ∧ lookupAL u.annotations TemplateDeprecatedKey = some "true"
      ∧ ∀ kv ∈ u.labels, isReservedLabelKey kv.1 = false :=
  ⟨_, runMigOp_getObj_self h,
   migMerged_deprecated _ e (deprecate_lookup t), migMerged_noReserved _ e⟩

/-- Witness for claim C4 at a concrete stale template present in the store. -/
theorem claim_C4_witness :
    getObj [wTplA] (objKey (mkMigOp wTplA).desired) = some wTplA
    ∧ ∃ u, getObj ((runMigOp (mkMigOp wTplA) [wTplA]).store)
          (objKey (mkMigOp wTplA).desired) = some u
        ∧ lookupAL u.annotations TemplateDeprecatedKey = some "true"
        ∧ ∀ kv ∈ u.labels, isReservedLabelKey kv.1 = false :=
  ⟨by decide, claim_C4_migration_op_effect wTplA wTplA [wTplA] (by decide)⟩

/-- Claim C1: executing all operations of a migration plan over N ≥ 2 stale
base templates results in each of the N objects being individually annotated
as deprecated with its own reserved-prefix labels stripped: each generated
operation acts on its own captured object, so after the run the store holds,
at every stale template's own key, that template deprecated and stripped —
the operations never all act on the last object only. -/
theorem claim_C1_migration_no_collapse (c : Client) (current reqNs : String)
    (ops : List MigOp) (hf : c.listFault = none)
    (hplan : reconcileOlderTemplates c current reqNs = Except.ok ops)
    (hN : 2 ≤ (staleTemplates c current reqNs).length)
    (hnd : (c.store.map objKey).Nodup) :
    ∀ t ∈ staleTemplates c current reqNs,
      ∃ u, getObj ((CollectResourceStatus (ops.map migOpFunc) c.store).state)
          (objKey t) = some u
        ∧ lookupAL u.annotations TemplateDeprecatedKey = some "true"
        ∧ ∀ kv ∈ u.labels, isReservedLabelKey kv.1 = false := by
  rw [reconcileOlderTemplates_ok c current reqNs hf] at hplan
  have hops : ops = (staleTemplates c current reqNs).map mkMigOp := by
    injection hplan with h
    exact h.symm
  subst hops
  intro t ht
  have hsub : List.Sublist ((staleTemplates c current reqNs).map objKey)
      (c.store.map objKey) :=
    (List.filter_sublist _).map objKey
  have hndts : ((staleTemplates c current reqNs).map objKey).Nodup :=
    hnd.sublist hsub
  have hpres : ∀ t' ∈ staleTemplates c current reqNs,
      getObj c.store (objKey t') = some t' := fun t' ht' =>
    getObj_of_nodup_mem hnd (List.mem_filter.mp ht').1
  rw [collect_migOps_state]
  exact ⟨_, runMigOps_each _ c.store hndts hpres t ht,
    migMerged_deprecated _ t (deprecate_lookup t), migMerged_noReserved _ t⟩

/-- Witness for claim C1: two stale templates with distinct keys; the plan of
the client's own list query is executed and both objects end up deprecated and
stripped. -/
theorem claim_C1_witness :
    wClientC1.listFault = none
    ∧ 2 ≤ (staleTemplates wClientC1 "v2" "ns1").length
    ∧ (wClientC1.store.map objKey).Nodup
    ∧ ∀ t ∈ staleTemplates wClientC1 "v2" "ns1",
        ∃ u, getObj ((CollectResourceStatus
              (((staleTemplates wClientC1 "v2" "ns1").map mkMigOp).map migOpFunc)
              wClientC1.store).state) (objKey t) = some u
          ∧ lookupAL u.annotations TemplateDeprecatedKey = some "true"
          ∧ ∀ kv ∈ u.labels, isReservedLabelKey kv.1 = false :=
  ⟨rfl, by decide, by decide,
   claim_C1_migration_no_collapse wClientC1 "v2" "ns1"
     ((staleTemplates wClientC1 "v2" "ns1").map mkMigOp) rfl
     (reconcileOlderTemplates_ok wClientC1 "v2" "ns1" rfl) (by decide)
     (by decide)⟩

/-- An error slot that does not abort the aggregator: no error, or an absence
error. -/
def benignErr (e? : Option KError) : Bool :=
  match e? with
  | none => true
  | some e => e.notFound

/-- The contiguous index range `[n, n+1, ..., n+len-1]`. -/
def idxRange : Nat → Nat → List Nat
  | _, 0 => []
  | n, len + 1 => n :: idxRange (n + 1) len

theorem enumFrom_cons {α : Type} (n : Nat) (x : α) (xs : List α) :
    List.enumFrom n (x :: xs) = (n, x) :: List.enumFrom (n + 1) xs := rfl

theorem collect_cons_none {σ : Type} (f : ReconcileFunc σ)
    (fs : List (ReconcileFunc σ)) (s s' : σ) (st : ResourceStatus)
    (hf : f s = (s', st, none)) :
    CollectResourceStatus (f :: fs) s =
      ⟨st :: (CollectResourceStatus fs s').statuses,
       (CollectResourceStatus fs s').err,
       (CollectResourceStatus fs s').state⟩ := by
  simp [CollectResourceStatus, hf]

theorem collect_cons_benign {σ : Type} (f : ReconcileFunc σ)
    (fs : List (ReconcileFunc σ)) (s s' : σ) (st : ResourceStatus) (e : KError)
    (hf : f s = (s', st, some e)) (he : e.notFound = true) :
    CollectResourceStatus (f :: fs) s =
      ⟨st :: (CollectResourceStatus fs s').statuses,
       (CollectResourceStatus fs s').err,
       (CollectResourceStatus fs s').state⟩ := by
  simp [CollectResourceStatus, hf, he]

theorem collect_cons_abort {σ : Type} (f : ReconcileFunc σ)
    (fs : List (ReconcileFunc σ)) (s s' : σ) (st : ResourceStatus) (e : KError)
    (hf : f s = (s', st, some e)) (he : e.notFound = false) :
    CollectResourceStatus (f :: fs) s = ⟨[st], some e, s'⟩ := by
  simp [CollectResourceStatus, hf, he]

theorem collect_trace_aux :
    ∀ (pre : List (ResourceStatus × Option KError)) (n : Nat) (tr : List Nat)
      (st : ResourceStatus) (e : KError)
      (post : List (ResourceStatus × Option KError)),
    (∀ x ∈ pre, benignErr x.2 = true) → e.notFound = false →
    CollectResourceStatus
      ((List.enumFrom n (pre ++ (st, some e) :: post)).map
        (fun p => traceOp p.1 p.2.1 p.2.2)) tr
      = ⟨pre.map Prod.fst ++ [st], some e, tr ++ idxRange n (pre.length + 1)⟩ := by
  intro pre
  induction pre with
  | nil =>
    intro n tr st e post _ he
    rw [List.nil_append, enumFrom_cons, List.map_cons,
      collect_cons_abort _ _ tr (tr ++ [n]) st e rfl he]
    rfl
  | cons x pre' ih =>
    obtain ⟨x1, x2⟩ := x
    intro n tr st e post hpre he
    have hx : benignErr (x1, x2).2 = true :=
      hpre (x1, x2) (List.mem_cons_self (x1, x2) pre')
    have hrest : ∀ y ∈ pre', benignErr y.2 = true :=
      fun y hy => hpre y (List.mem_cons_of_mem (x1, x2) hy)
    have hIH := ih (n + 1) (tr ++ [n]) st e post hrest he
    have hrange : idxRange n (pre'.length + 2)
        = n :: idxRange (n + 1) (pre'.length + 1) := rfl
    rw [List.cons_append, enumFrom_cons, List.map_cons]
    cases x2 with
    | none =>
      have hf : traceOp (n, x1, (none : Option KError)).1 (n, x1,
          (none : Option KError)).2.1 (n, x1, (none : Option KError)).2.2 tr
          = (tr ++ [n], x1, none) := rfl
      rw [collect_cons_none _ _ tr (tr ++ [n]) x1 hf, hIH]
      simp [idxRange, List.append_assoc]
    | some e' =>
      have hnf : e'.notFound = true := hx
      have hf : traceOp (n, x1, some e').1 (n, x1, some e').2.1
          (n, x1, some e').2.2 tr = (tr ++ [n], x1, some e') := rfl
      rw [collect_cons_benign _ _ tr (tr ++ [n]) x1 e' hf hnf, hIH]
      simp [idxRange, List.append_assoc]

/-- Claim C2: the status aggregator executes the supplied operations strictly
in the given order and aborts on the first non-absence error: the trace state
records exactly the indices `0 .. |pre|` in order (later operations never
execute), the returned statuses are exactly those of the executed operations
(|pre| + 1 of them, the failing one included), together with the triggering
error. -/
theorem claim_C2_aggregator_short_circuit
    (pre post : List (ResourceStatus × Option KError)) (st : ResourceStatus)
    (e : KError) (hpre : ∀ x ∈ pre, benignErr x.2 = true)
    (he : e.notFound = false) :
    CollectResourceStatus (mkTraceOps (pre ++ (st, some e) :: post)) []
      = ⟨pre.map Prod.fst ++ [st], some e, idxRange 0 (pre.length + 1)⟩
    ∧ (pre.map Prod.fst ++ [st]).length = pre.length + 1 := by
  constructor
  · have h := collect_trace_aux pre 0 [] st e post hpre he
    rw [List.nil_append] at h
    simpa [mkTraceOps, List.enum] using h
  · simp

/-- Witness for claim C2 at the spec's example [ok, ok, fail, ok]: exactly 3
statuses come back with the error of step 3, and the trace shows steps 0, 1, 2
executed — step 4 never runs. -/
theorem claim_C2_witness :
    (∀ x ∈ [((ResourceStatus.Created : ResourceStatus), (none : Option KError)),
            (ResourceStatus.Unchanged, none)], benignErr x.2 = true)
    ∧ (⟨false, 500⟩ : KError).notFound = false
    ∧ CollectResourceStatus
        (mkTraceOps ([(ResourceStatus.Created, none),
                      (ResourceStatus.Unchanged, none)]
          ++ (ResourceStatus.Updated, some ⟨false, 500⟩)
              :: [(ResourceStatus.Created, none)])) []
        = ⟨[ResourceStatus.Created, ResourceStatus.Unchanged,
            ResourceStatus.Updated], some ⟨false, 500⟩, [0, 1, 2]⟩ :=
  ⟨by decide, rfl,
   (claim_C2_aggregator_short_circuit
      [(ResourceStatus.Created, none), (ResourceStatus.Unchanged, none)]
      [(ResourceStatus.Created, none)] ResourceStatus.Updated ⟨false, 500⟩
      (by decide) rfl).1⟩

/-- Claim C5: the bundle cache executes the underlying load at most once per
process lifetime: once the cache is populated, a load request with any version
argument performs zero executions of the underlying load and returns the
already-cached list unchanged. -/
theorem claim_C5_cache_single_load
    (read : String → Except KError (List KObject)) (version : String)
    (ts : List KObject) :
    loadTemplatesStep read version (some ts)
      = (some ts, LoadOutcome.loaded ts, 0) := rfl

/-- Claim C8: a bundle load from an unreadable source, or from a source that
yields zero objects, is fatal: the once-load ends in `LoadOutcome.fatal` (the
panic) after exactly one execution of the underlying load — it neither
returns an error result nor retries — and `reconcileTemplatesFuncs`
propagates the panic instead of producing reconcile operations. -/
theorem claim_C8_bundle_load_fatal
    (read : String → Except KError (List KObject)) (version reqNs : String) :
    (∀ e, read version = Except.error e →
      loadTemplatesStep read version none
        = (none, LoadOutcome.fatal "Error reading from template bundle", 1)
      ∧ reconcileTemplatesFuncs read version reqNs none
        = (none, Except.error "Error reading from template bundle"))
    ∧ (read version = Except.ok [] →
      loadTemplatesStep read version none
        = (none,
           LoadOutcome.fatal "No templates could be found in the installed bundle",
           1)
      ∧ reconcileTemplatesFuncs read version reqNs none
        = (none,
           Except.error "No templates could be found in the installed bundle")) := by
  constructor
  · intro e he
    constructor
    · simp [loadTemplatesStep, he]
    · simp [reconcileTemplatesFuncs, loadTemplatesStep, he]
  · intro he
    constructor
    · simp [loadTemplatesStep, he]
    · simp [reconcileTemplatesFuncs, loadTemplatesStep, he]

/-- Witness for claim C8: a concrete failing reader produces the fatal
outcome after one load execution. -/
theorem claim_C8_witness :
    ((fun _ => Except.error ⟨false, 500⟩ :
        String → Except KError (List KObject)) "v1" = Except.error ⟨false, 500⟩)
    ∧ loadTemplatesStep (fun _ => Except.error ⟨false, 500⟩) "v1" none
        = (none, LoadOutcome.fatal "Error reading from template bundle", 1) :=
  ⟨rfl, ((claim_C8_bundle_load_fatal (fun _ => Except.error ⟨false, 500⟩)
      "v1" "ns1").1 ⟨false, 500⟩ rfl).1⟩

/-- Claim C9 as stated is false on the code: building the per-template
reconcile operations mutates the shared cached bundle in place — each cached
object's namespace field is set to the request namespace. A cached template
living in namespace "old" is changed by a pass over namespace "new". -/
theorem claim_C9_counterexample :
    (reconcileTemplatesFuncs (fun _ => Except.ok []) "v1" "new"
      (some [⟨"Template", "t1", "old", [], [], []⟩])).1
      ≠ some [⟨"Template", "t1", "old", [], [], []⟩] := by decide

/-- Claim C9 amended: apart from the once-load state, the only
cross-invocation shared state is the cached bundle itself, and the only
mutation either path performs on it is setting each cached object's namespace
field to the request namespace: building the per-template operations and
running cleanup both rewrite the cache to exactly that, leaving kind, name,
labels, annotations and payload of every cached object unchanged. -/
theorem claim_C9_cache_mutation (read : String → Except KError (List KObject))
    (version reqNs : String) (ts : List KObject) (c : Client) :
    (reconcileTemplatesFuncs read version reqNs (some ts)).1
      = some (ts.map (fun t => { t with ns := reqNs }))
    ∧ (Cleanup reqNs (some ts) c).1
      = some (ts.map (fun t => { t with ns := reqNs }))
    ∧ ∀ t : KObject, ({ t with ns := reqNs } : KObject).kind = t.kind
        ∧ ({ t with ns := reqNs } : KObject).name = t.name
        ∧ ({ t with ns := reqNs } : KObject).labels = t.labels
        ∧ ({ t with ns := reqNs } : KObject).annotations = t.annotations
        ∧ ({ t with ns := reqNs } : KObject).payload = t.payload :=
  ⟨rfl, rfl, fun _ => ⟨rfl, rfl, rfl, rfl, rfl⟩⟩

/-- Claim C10: if the migration list query fails with a non-absence error, the
whole reconciliation pass returns the nil status list and that error before
any operation executes — the namespace, role and role-binding operations
never run, the client (and so the store) is returned unchanged, and the
bundle cache is untouched. -/
theorem claim_C10_list_error_aborts
    (read : String → Except KError (List KObject)) (version reqNs : String)
    (cache : Option (List KObject)) (c : Client) (e : KError)
    (hf : c.listFault = some e) (hnf : e.notFound = false) :
    Reconcile read version reqNs cache c
      = Except.ok ⟨none, some e, c, cache⟩ := by
  have h : reconcileOlderTemplates c version reqNs = Except.error e := by
    simp [reconcileOlderTemplates, listTemplates, hf, hnf]
  simp [Reconcile, h]

/-- Client for the list-error witness. -/
def wClientC10 : Client := ⟨[wTplA], some ⟨false, 503⟩, fun _ => none⟩

/-- Witness for claim C10: with an injected non-absence list fault, the pass
returns nil statuses, the fault, the untouched client and the untouched
cache. -/
theorem claim_C10_witness :
    wClientC10.listFault = some ⟨false, 503⟩
    ∧ (⟨false, 503⟩ : KError).notFound = false
    ∧ Reconcile (fun _ => Except.ok [wTplB]) "v2" "ns1" none wClientC10
        = Except.ok ⟨none, some ⟨false, 503⟩, wClientC10, none⟩ :=
  ⟨rfl, rfl,
   claim_C10_list_error_aborts (fun _ => Except.ok [wTplB]) "v2" "ns1" none
     wClientC10 ⟨false, 503⟩ rfl rfl⟩

/-- A Delete call on this object does not abort cleanup: no injected fault, or
an absence fault. -/
def benignDelete (c : Client) (o : KObject) : Bool :=
  match c.deleteFault o with
  | none => true
  | some e => e.notFound

theorem clientDelete_fault_preserved (c : Client) (o : KObject) :
    ((clientDelete c o).1).deleteFault = c.deleteFault := by
  unfold clientDelete
  cases h : c.deleteFault o with
  | some e => rfl
  | none => cases hg : getObj c.store (objKey o) <;> rfl

theorem clientDelete_fault {c : Client} {o : KObject} {c' : Client}
    {eo : Option KError} (h : clientDelete c o = (c', eo)) :
    c'.deleteFault = c.deleteFault := by
  have h₁ := congrArg (fun p => p.1.deleteFault) h
  simp only at h₁
  rw [← h₁]
  exact clientDelete_fault_preserved c o

theorem clientDelete_benign_err {c : Client} {o : KObject} {c' : Client}
    {e : KError} (hb : benignDelete c o = true)
    (h : clientDelete c o = (c', some e)) : e.notFound = true := by
  unfold clientDelete at h
  unfold benignDelete at hb
  cases hd : c.deleteFault o with
  | some e₀ =>
    rw [hd] at h hb
    injection h with h1 h2
    injection h2 with h3
    rw [← h3]
    exact hb
  | none =>
    rw [hd] at h
    cases hg : getObj c.store (objKey o) with
    | some _ =>
      rw [hg] at h
      injection h with h1 h2
      cases h2
    | none =>
      rw [hg] at h
      injection h with h1 h2
      injection h2 with h3
      rw [← h3]

theorem deleteAll_fault_preserved : ∀ (os : List KObject) (c : Client),
    ((deleteAll c os).1).deleteFault = c.deleteFault := by
  intro os
  induction os with
  | nil => intro c; rfl
  | cons o os' ih =>
    intro c
    cases hcd : clientDelete c o with
    | mk c' eo =>
      have hf : c'.deleteFault = c.deleteFault := clientDelete_fault hcd
      cases eo with
      | none =>
        simp only [deleteAll, hcd]
        rw [ih c', hf]
      | some e =>
        by_cases hnf : e.notFound = true
        · simp only [deleteAll, hcd, hnf, if_true]
          rw [ih c', hf]
        · have hnf' : e.notFound = false := by
            cases hx : e.notFound
            · rfl
            · exact absurd hx hnf
          simp only [deleteAll, hcd, hnf', Bool.false_eq_true, if_false]
          exact hf

theorem deleteAll_benign : ∀ (os : List KObject) (c : Client),
    (∀ o ∈ os, benignDelete c o = true) →
    (deleteAll c os).2.1 = none ∧ (deleteAll c os).2.2 = os.length := by
  intro os
  induction os with
  | nil => intro c _; exact ⟨rfl, rfl⟩
  | cons o os' ih =>
    intro c h
    have hb : benignDelete c o = true := h o (List.mem_cons_self o os')
    cases hcd : clientDelete c o with
    | mk c' eo =>
      have hf : c'.deleteFault = c.deleteFault := clientDelete_fault hcd
      have hrest : ∀ o' ∈ os', benignDelete c' o' = true := by
        intro o' ho'
        unfold benignDelete
        rw [hf]
        exact h o' (List.mem_cons_of_mem o ho')
      cases eo with
      | none =>
        simp only [deleteAll, hcd]
        have hih := ih c' hrest
        exact ⟨hih.1, by simp [hih.2]⟩
      | some e =>
        have hnf : e.notFound = true := clientDelete_benign_err hb hcd
        simp only [deleteAll, hcd, hnf, if_true]
        have hih := ih c' hrest
        exact ⟨hih.1, by simp [hih.2]⟩

theorem deleteAll_benign_append : ∀ (xs ys : List KObject) (c : Client),
    (∀ o ∈ xs, benignDelete c o = true) →
    deleteAll c (xs ++ ys)
      = ((deleteAll ((deleteAll c xs).1) ys).1,
         (deleteAll ((deleteAll c xs).1) ys).2.1,
         xs.length + (deleteAll ((deleteAll c xs).1) ys).2.2) := by
  intro xs
  induction xs with
  | nil => intro ys c _; simp [deleteAll]
  | cons o xs' ih =>
    intro ys c h
    have hb : benignDelete c o = true := h o (List.mem_cons_self o xs')
    cases hcd : clientDelete c o with
    | mk c' eo =>
      have hf : c'.deleteFault = c.deleteFault := clientDelete_fault hcd
      have hrest : ∀ o' ∈ xs', benignDelete c' o' = true := by
        intro o' ho'
        unfold benignDelete
        rw [hf]
        exact h o' (List.mem_cons_of_mem o ho')
      cases eo with
      | none =>
        simp only [List.cons_append, deleteAll, hcd, List.append_eq]
        rw [ih ys c' hrest]
        simp only [Prod.mk.injEq, List.length_cons]
        exact ⟨trivial, trivial, by omega⟩
      | some e =>
        have hnf : e.notFound = true := clientDelete_benign_err hb hcd
        simp only [List.cons_append, deleteAll, hcd, hnf, if_true,
          List.append_eq]
        rw [ih ys c' hrest]
        simp only [Prod.mk.injEq, List.length_cons]
        exact ⟨trivial, trivial, by omega⟩

/-- Claim C7: cleanup's delete-all over its assembled object list treats
absence on any delete as success — when the only failures are absences it
returns no error and issues exactly one Delete per listed object — and on any
other delete error it aborts at once: the error is returned after exactly the
deletes up to and including the failing one, the remaining objects are never
attempted, and the deletes already performed stand (the resulting client is
the one produced by deleting the prefix; nothing is rolled back). -/
theorem claim_C7_cleanup_tolerance (reqNs : String)
    (cache : Option (List KObject)) (c : Client) :
    ((∀ o ∈ cleanupObjects reqNs cache, benignDelete c o = true) →
      (Cleanup reqNs cache c).2.2.1 = none
      ∧ (Cleanup reqNs cache c).2.2.2 = (cleanupObjects reqNs cache).length)
    ∧ (∀ pre bad post e, cleanupObjects reqNs cache = pre ++ bad :: post →
        (∀ o ∈ pre, benignDelete c o = true) →
        c.deleteFault bad = some e → e.notFound = false →
        (Cleanup reqNs cache c).2.1 = (deleteAll c pre).1
        ∧ (Cleanup reqNs cache c).2.2.1 = some e
        ∧ (Cleanup reqNs cache c).2.2.2 = pre.length + 1) := by
  constructor
  · intro h
    have hda := deleteAll_benign (cleanupObjects reqNs cache) c h
    exact ⟨hda.1, hda.2⟩
  · intro pre bad post e hobj hpre hfault hnf
    have hf₁ : ((deleteAll c pre).1).deleteFault = c.deleteFault :=
      deleteAll_fault_preserved pre c
    have hcd : clientDelete ((deleteAll c pre).1) bad
        = ((deleteAll c pre).1, some e) := by
      unfold clientDelete
      rw [hf₁, hfault]
    have h₂ : deleteAll ((deleteAll c pre).1) (bad :: post)
        = ((deleteAll c pre).1, some e, 1) := by
      simp only [deleteAll, hcd, hnf, Bool.false_eq_true, if_false]
    have h₁ := deleteAll_benign_append pre (bad :: post) c hpre
    rw [h₂] at h₁
    have hcl : Cleanup reqNs cache c
        = (cache.map (fun ts => ts.map (fun t => { t with ns := reqNs })),
           (deleteAll c (cleanupObjects reqNs cache)).1,
           (deleteAll c (cleanupObjects reqNs cache)).2.1,
           (deleteAll c (cleanupObjects reqNs cache)).2.2) := rfl
    rw [hcl, hobj, h₁]
    exact ⟨rfl, rfl, rfl⟩

/-- Client for the cleanup witness: only the view Role is present; every other
assembled object is already absent. -/
def wClientC7 : Client := ⟨[newViewRole GoldenImagesNSname], none, fun _ => none⟩

/-- Witness for claim C7: over a mixed set where most objects are absent,
cleanup returns no error and attempts every listed object exactly once. -/
theorem claim_C7_witness :
    (∀ o ∈ cleanupObjects "ns1" (some [wTplA]), benignDelete wClientC7 o = true)
    ∧ (Cleanup "ns1" (some [wTplA]) wClientC7).2.2.1 = none
    ∧ (Cleanup "ns1" (some [wTplA]) wClientC7).2.2.2
        = (cleanupObjects "ns1" (some [wTplA])).length :=
  ⟨by decide,
   ((claim_C7_cleanup_tolerance "ns1" (some [wTplA]) wClientC7).1 (by decide)).1,
   ((claim_C7_cleanup_tolerance "ns1" (some [wTplA]) wClientC7).1 (by decide)).2⟩

end SSPCore
